import Mathlib

/-!
Shallow embedding of the extension-catalog engine of `vscoffline`
(`vscoffline/server.py` with constants and helpers from `vscoffline/vsc.py`).

The Python code is translated as follows: JSON dictionaries become
structures whose optional keys are `Option` fields; exceptions become
`Option`/`Except` results; the mutable published snapshot
(`VSCGallery.extensions`, a Python dict) becomes an insertion-ordered
association list, and each successive value it takes during a rebuild is
recorded in an explicit trace; Python's stable `sorted`/`list.sort` is
modelled by `List.insertionSort` (any stable sort with respect to the same
total preorder computes the same list); `packaging.version.Version` is
modelled for purely numeric dotted release strings, every other string
being treated as unparseable (`InvalidVersion`).
-/

namespace VSCOffline

/-! ## String helpers (character-list based, kernel-reducible) -/

/-- Python `needle in hay` contiguous-substring test on character lists. -/
def listContains (needle : List Char) : List Char → Bool
  | [] => needle.isEmpty
  | c :: t => needle.isPrefixOf (c :: t) || listContains needle t

/-- Python `needle in hay` for strings. -/
def strContains (needle hay : String) : Bool :=
  listContains needle.data hay.data

/-- Python `str.lower()`. The source may receive non-ASCII text; only the
ASCII case mapping is modelled here. -/
def pyLower (s : String) : String :=
  ⟨s.data.map Char.toLower⟩

/-- Split a character list on a separator character, like Python
`str.split(sep)` for a single-character separator (and like
`String.splitOn`): the empty input yields `[[]]`. -/
def splitOnChar (sep : Char) (cs : List Char) : List (List Char) :=
  cs.foldr
    (fun ch acc =>
      if ch = sep then [] :: acc
      else
        match acc with
        | h :: t => (ch :: h) :: t
        | [] => [[ch]])
    [[]]

/-- Parse a non-empty all-digit character list as a decimal number,
like Python `int(...)` on a digit string (and like `String.toNat?`). -/
def charsToNat? : List Char → Option Nat
  | [] => none
  | cs => cs.foldlM
      (fun acc c =>
        if c.toNat < 48 ∨ 57 < c.toNat then none
        else some (acc * 10 + (c.toNat - 48)))
      0

/-! ## Version parsing and comparison

`packaging.version.Version(s)`, modelled for dotted numeric release
strings ("1", "1.0", "2.10.3", ...). Anything else is treated as raising
`InvalidVersion` (`none`). Two releases compare by their numeric
components with the shorter one padded with zeros, so "1.0" equals
"1.0.0". -/

def parseVersion (s : String) : Option (List Nat) :=
  (splitOnChar '.' s.data).mapM charsToNat?

/-- Zero-padded component-wise comparison of release tuples:
`verLe a b` holds when release `a` is less than or equal to release `b`. -/
def verLe : List Nat → List Nat → Bool
  | [], _ => true
  | a :: as, [] => if a = 0 then verLe as [] else false
  | a :: as, b :: bs => if a < b then true else if b < a then false else verLe as bs

/-! ## Data model

One JSON extension description (`latest.json` / a per-version
`extension.json`), after `vsc.Utility.load_json`. Optional fields model
optional JSON keys; a missing mandatory access raises `KeyError` in the
source, which the embedding propagates as `none` results. `publisherName`
flattens the nested `publisher.publisherName` access of the source, and
`extensionId` is modelled as always present (the query engine reads it
unguarded). -/

structure FileAsset where
  assetType : String
  /-- Absent in the on-disk JSON; written by `process_loaded_extension`. -/
  source : Option String := none
deriving DecidableEq, Repr

structure VersionRec where
  version : String
  targetPlatform : Option String := none
  /-- The `files` array; `none` models a missing `files` key, whose access
  raises `KeyError` in the source. -/
  files : Option (List FileAsset) := none
  /-- Written by `process_loaded_extension`. -/
  assetUri : Option String := none
  /-- Written by `process_loaded_extension`. -/
  fallbackAssetUri : Option String := none
deriving DecidableEq, Repr

structure StatEntry where
  statisticName : String
  value : Rat
deriving DecidableEq, Repr

/-- The normalized `stats` dictionary built by `process_loaded_extension`.
Statistic names other than these three produce dictionary keys the engine
never reads, so they are not represented. -/
structure Stats where
  averagerating : Rat
  install : Rat
  weightedRating : Rat
deriving DecidableEq, Repr

structure ExtRecord where
  identity : Option String := none
  extensionId : String := ""
  displayName : Option String := none
  shortDescription : Option String := none
  publisherName : String := ""
  lastUpdated : String := ""
  publishedDate : String := ""
  versions : Option (List VersionRec) := none
  statistics : Option (List StatEntry) := none
  recommended : Option Bool := none
  /-- Written by `process_loaded_extension`; `none` on raw JSON records. -/
  stats : Option Stats := none
deriving DecidableEq, Repr

/-! ## Constants from vsc.py (default configuration) -/

def URLROOT : String := "https://update.code.visualstudio.com"

def ARTIFACTS_EXTENSIONS : String := "/artifacts/extensions"

/-! ## Metadata loading (`process_loaded_extension`, `process_single_extension`) -/

def defaultStats : Stats := ⟨0, 0, 0⟩

/-- One step of overlaying a named statistic onto the default `stats`
dictionary (`stats.update(extension_statistics)` in the source; a later
entry with the same name overwrites an earlier one). -/
def applyStat (s : Stats) (e : StatEntry) : Stats :=
  if e.statisticName = "averagerating" then { s with averagerating := e.value }
  else if e.statisticName = "install" then { s with install := e.value }
  else if e.statisticName = "weightedRating" then { s with weightedRating := e.value }
  else s

/-- Normalized statistics: defaults of zero, overlaid by any named
statistics present; a missing or empty (falsy) `statistics` list keeps the
defaults. -/
def computeStats : Option (List StatEntry) → Stats
  | none => defaultStats
  | some [] => defaultStats
  | some entries => entries.foldl applyStat defaultStats

/-- Asset-URI computation for one version record (the loop body of
`process_loaded_extension`): base URI plus version (plus target platform
when present); every file's `source` becomes that URI plus the asset type.
`none` models the `KeyError` raised when the version has no `files` key. -/
def processVersion (baseUri : String) (v : VersionRec) : Option VersionRec := do
  let asseturi :=
    match v.targetPlatform with
    | some tp => baseUri ++ "/" ++ v.version ++ "/" ++ tp
    | none => baseUri ++ "/" ++ v.version
  let fs ← v.files
  return { v with
    assetUri := some asseturi
    fallbackAssetUri := some asseturi
    files := some (fs.map fun a => { a with source := some (asseturi ++ "/" ++ a.assetType) }) }

/-- `VSCGallery.process_loaded_extension`: resolves every version's asset
URIs and normalizes statistics. `none` models an uncaught exception
(missing `identity` or `versions` key, or a version without `files`),
which the caller's blanket `except` turns into a skipped extension. -/
def processLoadedExtension (extension : ExtRecord) (extensiondir : String) : Option ExtRecord := do
  let _name ← extension.identity
  let baseUri := URLROOT ++ extensiondir
  let vs ← extension.versions
  let newVs ← vs.mapM (processVersion baseUri)
  return { extension with
    versions := some newVs
    stats := some (computeStats extension.statistics) }

/-- One sibling version directory inside an extension directory.
`extensionJson = none` models either a missing `extension.json` or a falsy
`load_json` result (empty or malformed JSON), which the loop skips. -/
structure SiblingDir where
  extensionJson : Option ExtRecord := none
deriving DecidableEq, Repr

/-- On-disk content of one extension directory. `latestExists` is the
`os.path.exists(latest.json)` test done by `update_state`'s scan;
`latestJson = none` models a missing file or falsy `load_json` result;
`siblings = none` models `os.scandir` raising `OSError` inside
`process_single_extension` (graceful latest-only degradation). -/
structure ExtDirContent where
  latestExists : Bool := true
  latestJson : Option ExtRecord := none
  siblings : Option (List SiblingDir) := none
deriving Repr

/-- The sibling-discovery loop of `process_single_extension`: walk the
sibling directories in discovery order, skip those without a loadable
`extension.json`, process the rest, and append each first version record
unless it equals (Python dict `==`) the already-known latest version
record. `none` models an exception while processing a sibling (propagated
out of the inner `except OSError` and caught by the outer blanket
`except`, failing the whole extension). -/
def mergeSiblingVersions (extensiondir : String) (latestversion : VersionRec)
    (acc : List VersionRec) : List SiblingDir → Option (List VersionRec)
  | [] => some acc
  | s :: rest =>
    match s.extensionJson with
    | none => mergeSiblingVersions extensiondir latestversion acc rest
    | some raw =>
      match processLoadedExtension raw extensiondir with
      | none => none
      | some vers =>
        match vers.versions with
        | some [] => none
        | none => none
        | some (v0 :: _) =>
          if v0 = latestversion then
            mergeSiblingVersions extensiondir latestversion acc rest
          else
            mergeSiblingVersions extensiondir latestversion (acc ++ [v0]) rest

/-- Parsed-version sort key of a version record (total on records whose
version string parses; the sort below is only reached in that case). -/
def vkeyD (v : VersionRec) : List Nat := (parseVersion v.version).getD []

/-- Descending order on version records by parsed version: `versionGE a b`
holds when `a`'s release is greater than or equal to `b`'s. -/
def versionGE (a b : VersionRec) : Prop := verLe (vkeyD b) (vkeyD a) = true

instance : DecidableRel versionGE :=
  fun a b => inferInstanceAs (Decidable (verLe (vkeyD b) (vkeyD a) = true))

/-- The final `sorted(latest['versions'], key=lambda k: Version(k['version']),
reverse=True)` of `process_single_extension`: `Version` raises on any
unparseable version string (failing the whole extension); otherwise a
stable descending sort by parsed version. -/
def sortVersionsDesc (vs : List VersionRec) : Option (List VersionRec) :=
  match vs.mapM (fun v => parseVersion v.version) with
  | none => none
  | some _ => some (vs.insertionSort versionGE)

/-- The load-and-validate stage of `process_single_extension`: the loaded
`latest.json` must be truthy, carry `identity` and a non-empty `versions`
list, and survive `process_loaded_extension`. -/
def latestProcessed (extensiondir : String) (c : ExtDirContent) : Option ExtRecord :=
  match c.latestJson with
  | none => none
  | some raw =>
    match raw.identity, raw.versions with
    | some _, some (_ :: _) => processLoadedExtension raw extensiondir
    | _, _ => none

/-- The merged (pre-sort, discovery-ordered) versions list of
`process_single_extension`: the processed latest versions, then the
surviving sibling first versions; an `OSError` while listing the
directory keeps only the latest versions. -/
def mergedVersions (extensiondir : String) (c : ExtDirContent) : Option (List VersionRec) :=
  match latestProcessed extensiondir c with
  | none => none
  | some latest =>
    match latest.versions with
    | some (lv0 :: lvs) =>
      match c.siblings with
      | none => some (lv0 :: lvs)
      | some sibs => mergeSiblingVersions extensiondir lv0 (lv0 :: lvs) sibs
    | _ => none

/-- `VSCGallery.process_single_extension`: load and validate the latest
description, merge sibling versions, and sort all versions descending by
parsed version. Any failure returns `none` (the extension is skipped). -/
def processSingleExtension (extensiondir : String) (c : ExtDirContent) : Option ExtRecord :=
  match latestProcessed extensiondir c, mergedVersions extensiondir c with
  | some latest, some ms =>
    match sortVersionsDesc ms with
    | none => none
    | some sortedVs => some { latest with versions := some sortedVs }
  | _, _ => none

/-! ## Snapshot dictionaries

`VSCGallery.extensions` is a Python dict keyed by extension identity;
modelled as an insertion-ordered association list: assigning an existing
key overwrites in place, a new key is appended (Python dict semantics). -/

abbrev Snapshot := List (String × ExtRecord)

def dictMem (d : Snapshot) (k : String) : Bool := d.any (fun p => p.1 = k)

/-- Python `d[k] = v`. -/
def dictSet (d : Snapshot) (k : String) (v : ExtRecord) : Snapshot :=
  if dictMem d k then d.map (fun p => if p.1 = k then (k, v) else p) else d ++ [(k, v)]

/-- Python `d.update(b)`, with `b` itself a dict (iterated in its own
insertion order). -/
def dictUpdate (d b : Snapshot) : Snapshot := b.foldl (fun acc p => dictSet acc p.1 p.2) d

def dictGet? (d : Snapshot) (k : String) : Option ExtRecord :=
  (d.find? (fun p => p.1 = k)).map (·.2)

/-- Python `d.values()` in insertion order. -/
def dictValues (d : Snapshot) : List ExtRecord := d.map (·.2)

/-! ## Query engine (`on_post`, `_apply_criteria`, `_sort`, `_build_response`) -/

/-- The `vsc.FilterType` enumeration (values 1,4,5,7,8,9,10,12,14). -/
inductive FilterType where
  | Tag
  | ExtensionId
  | Category
  | ExtensionName
  | Target
  | Featured
  | SearchText
  | ExcludeWithFlags
  | UndefinedType
deriving DecidableEq, Repr

/-- One filter criterion of a query. `incomplete` models a criterion
dictionary missing `filterType` or `value`: skipped by `_apply_criteria`'s
loop but still counted by `len(criteria)`. -/
inductive Criterion where
  | mk (filterType : FilterType) (value : String)
  | incomplete
deriving DecidableEq, Repr

/-- ExtensionId branch: the lowercased criterion value is compared to the
record's raw `extensionId`, in snapshot (dict insertion) order. -/
def matchExtensionId (extensions : Snapshot) (val : String) : List ExtRecord :=
  (extensions.filter (fun p => val = p.2.extensionId)).map (·.2)

/-- ExtensionName branch: the lowercased dict key is compared to the
lowercased criterion value. -/
def matchExtensionName (extensions : Snapshot) (val : String) : List ExtRecord :=
  (extensions.filter (fun p => pyLower p.1 = val)).map (·.2)

/-- SearchText membership for one record: substring match against the
lowercased key, then (elif) the lowercased `displayName` when present,
then (elif) the lowercased `shortDescription` when present; a record is
appended at most once per criterion. -/
def searchTextMatches (val : String) (name : String) (e : ExtRecord) : Bool :=
  strContains val (pyLower name)
  || (match e.displayName with
      | some dn => strContains val (pyLower dn)
      | none => false)
  || (match e.shortDescription with
      | some sd => strContains val (pyLower sd)
      | none => false)

def matchSearchText (extensions : Snapshot) (val : String) : List ExtRecord :=
  (extensions.filter (fun p => searchTextMatches val p.1 p.2)).map (·.2)

/-- The records a single criterion appends to `result` (in snapshot
order). Tag, Category, Target, Featured, ExcludeWithFlags and undefined
filter types are accepted as no-ops (logged in the source). -/
def critMatches (extensions : Snapshot) : Criterion → List ExtRecord
  | .incomplete => []
  | .mk ft value =>
    let val := pyLower value
    match ft with
    | .ExtensionId => matchExtensionId extensions val
    | .ExtensionName => matchExtensionName extensions val
    | .SearchText => matchSearchText extensions val
    | _ => []

/-- The criteria loop of `_apply_criteria`: each criterion appends its own
matches to the shared `result` list. -/
def applyCriteriaLoop (extensions : Snapshot) (criteria : List Criterion)
    (result : List ExtRecord) : List ExtRecord :=
  match criteria with
  | [] => result
  | c :: rest => applyCriteriaLoop extensions rest (result ++ critMatches extensions c)

/-- The recommended-extensions fallback list: every value of the snapshot
whose `recommended` key is present and truthy, in snapshot order. -/
def recommendedList (extensions : Snapshot) : List ExtRecord :=
  (dictValues extensions).filter (fun e => e.recommended == some true)

/-- `VSCGallery._apply_criteria`: run every criterion over a copy of the
published snapshot, then fall back to the recommended extensions when the
result is empty and at most two criteria were given. -/
def applyCriteria (extensions : Snapshot) (criteria : List Criterion) : List ExtRecord :=
  let result := applyCriteriaLoop extensions criteria []
  if result.length ≤ 0 ∧ criteria.length ≤ 2 then recommendedList extensions else result

/-- The `vsc.SortBy` enumeration. -/
inductive SortBy where
  | NoneOrRelevance
  | LastUpdatedDate
  | Title
  | PublisherName
  | InstallCount
  | PublishedDate
  | AverageRating
  | WeightedRating
deriving DecidableEq, Repr

/-- The `vsc.SortOrder` enumeration. -/
inductive SortOrder where
  | Default
  | Ascending
  | Descending
deriving DecidableEq, Repr

/-- Lexicographic (code-point) order on character lists: Python string
comparison. -/
def charListLe : List Char → List Char → Bool
  | [], _ => true
  | _ :: _, [] => false
  | a :: as, b :: bs =>
    if a.toNat < b.toNat then true
    else if b.toNat < a.toNat then false
    else charListLe as bs

def strLe (a b : String) : Bool := charListLe a.data b.data

def ratLe (a b : Rat) : Bool := decide (a ≤ b)

/-- Parse `vsc.Utility.from_json_datetime`'s fixed format
"%Y-%m-%dT%H:%M:%S.%fZ" into comparable components (the fractional part
is microseconds, right-padded as `strptime` does). Field-range validation
is not modelled; the source raises on a string that does not fit the
format, here ordered first. -/
def parseJsonDatetime (s : String) : Option (List Nat) :=
  match splitOnChar 'T' s.data with
  | [d, t] =>
    match splitOnChar '-' d with
    | [y, mo, da] =>
      match t.getLast? with
      | some 'Z' =>
        match splitOnChar ':' t.dropLast with
        | [h, mi, sf] =>
          match splitOnChar '.' sf with
          | [sec, frac] =>
            if 1 ≤ frac.length ∧ frac.length ≤ 6 then
              match charsToNat? y, charsToNat? mo, charsToNat? da,
                    charsToNat? h, charsToNat? mi, charsToNat? sec, charsToNat? frac with
              | some yn, some mon, some dan, some hn, some min', some secn, some fn =>
                some [yn, mon, dan, hn, min', secn, fn * 10 ^ (6 - frac.length)]
              | _, _, _, _, _, _, _ => none
            else none
          | _ => none
        | _ => none
      | _ => none
    | _ => none
  | _ => none

def optNatListLe (a b : Option (List Nat)) : Bool :=
  match a, b with
  | none, _ => true
  | some _, none => false
  | some x, some y => verLe x y

/-- Python `result.sort(key=..., reverse=rev)`: a stable sort, modelled by
`insertionSort` on the key comparison (reversed keys when `rev`; equal
keys keep their original relative order either way). -/
def pySortByKey {κ : Type} (key : ExtRecord → κ) (kle : κ → κ → Bool) (rev : Bool)
    (l : List ExtRecord) : List ExtRecord :=
  if rev then l.insertionSort (fun a b => kle (key b) (key a) = true)
  else l.insertionSort (fun a b => kle (key a) (key b) = true)

/-- Sort key `k['stats']['install']` etc.; records built by the engine
always carry `stats` (a record without it would raise in the source). -/
def statsOf (e : ExtRecord) : Stats := e.stats.getD defaultStats

def installKey (e : ExtRecord) : Rat := (statsOf e).install

/-- `VSCGallery._sort`: `rev` is true unless ascending order was
requested; the PublisherName and default (display-name) branches invert
it again, matching reference-marketplace semantics. A record missing
`displayName` would raise in the source's default branch; modelled with
an empty-string key (no claim exercises it). -/
def sortResult (result : List ExtRecord) (sortby : SortBy) (sortorder : SortOrder) :
    List ExtRecord :=
  let rev : Bool := if sortorder = SortOrder.Ascending then false else true
  match sortby with
  | .PublisherName => pySortByKey (fun k => k.publisherName) strLe (!rev) result
  | .InstallCount => pySortByKey installKey ratLe rev result
  | .AverageRating => pySortByKey (fun k => (statsOf k).averagerating) ratLe rev result
  | .WeightedRating => pySortByKey (fun k => (statsOf k).weightedRating) ratLe rev result
  | .LastUpdatedDate => pySortByKey (fun k => parseJsonDatetime k.lastUpdated) optNatListLe rev result
  | .PublishedDate => pySortByKey (fun k => parseJsonDatetime k.publishedDate) optNatListLe rev result
  | _ => pySortByKey (fun k => k.displayName.getD "") strLe (!rev) result

/-- The sort-selection logic of `on_post`: `req.media[...].get(...)` is
falsy for an absent key and for the zero enum values (`NoneOrRelevance`,
`Default`), so those collapse to the defaults; a `NoneOrRelevance` sort
key becomes install count descending. -/
def effectiveSort (sortBy? : Option SortBy) (sortOrder? : Option SortOrder) :
    SortBy × SortOrder :=
  let sortby := sortBy?.getD SortBy.NoneOrRelevance
  let sortorder := sortOrder?.getD SortOrder.Default
  if sortby = SortBy.NoneOrRelevance then (SortBy.InstallCount, SortOrder.Descending)
  else (sortby, sortorder)

/-- The query pipeline of `on_post` (filter, then sort). -/
def galleryQuery (extensions : Snapshot) (criteria : List Criterion)
    (sortBy? : Option SortBy) (sortOrder? : Option SortOrder) : List ExtRecord :=
  let eff := effectiveSort sortBy? sortOrder?
  sortResult (applyCriteria extensions criteria) eff.1 eff.2

/-- The response envelope of `_build_response`. -/
structure QueryResponse where
  extensions : List ExtRecord
  pagingToken : Option String
  totalCount : Nat
deriving DecidableEq, Repr

/-- `VSCGallery._build_response`: the result list, a null paging token,
and a ResultCount/TotalCount metadata block equal to the list's length. -/
def buildResponse (resultingExtensions : List ExtRecord) : QueryResponse :=
  { extensions := resultingExtensions
    pagingToken := none
    totalCount := resultingExtensions.length }

/-! ## Cache store and rebuild (`load_cache`, `get_*_mtime`, `update_state`) -/

/-- One immediate subdirectory of the extensions storage root (non-directory
entries, which both scans skip, are not represented). `updatedJsonMtime`
is the mtime of the directory's `updated.json` marker when that file
exists. -/
structure ExtDirEntry where
  name : String
  mtime : Nat
  updatedJsonMtime : Option Nat := none
  content : ExtDirContent
deriving Repr

/-- The filesystem state a rebuild observes. `cache = some (m, c)` means
the cache file exists with mtime `m`; `c = none` means its content fails
to decompress/deserialize (the `except` path of `load_cache`).
`extensionsRoot = none` means `os.scandir` on the extensions root raises
`OSError`. -/
structure GalleryFS where
  cache : Option (Nat × Option Snapshot) := none
  extensionsRoot : Option (List ExtDirEntry) := none
deriving Repr

/-- `VSCGallery.get_cache_mtime`: 0 when the cache file does not exist. -/
def getCacheMtime (fs : GalleryFS) : Nat := (fs.cache.map (·.1)).getD 0

/-- `VSCGallery.get_extensions_mtime`: the maximum mtime over every
extension subdirectory and every existing per-extension `updated.json`;
`float('inf')` (here `⊤`) when the root cannot be scanned. -/
def getExtensionsMtime (fs : GalleryFS) : WithTop Nat :=
  match fs.extensionsRoot with
  | none => ⊤
  | some entries =>
    ((entries.foldl
        (fun m e =>
          let m := max m e.mtime
          match e.updatedJsonMtime with
          | some u => max m u
          | none => m)
        0 : Nat) : WithTop Nat)

/-- `VSCGallery.load_cache`: returns whether the published snapshot was
replaced from the cache, together with the resulting snapshot. The cache
is used only when its mtime is strictly newer than the extensions tree's;
a deserialization failure is non-fatal and leaves the snapshot
untouched. -/
def loadCache (fs : GalleryFS) (published : Snapshot) : Bool × Snapshot :=
  let cacheMtime := getCacheMtime fs
  let extensionsMtime := getExtensionsMtime fs
  if extensionsMtime < (cacheMtime : WithTop Nat) ∧ fs.cache.isSome then
    match fs.cache with
    | some (_, some cachedData) => (true, cachedData)
    | some (_, none) => (false, published)
    | none => (false, published)
  else (false, published)

def extDirPath (e : ExtDirEntry) : String := ARTIFACTS_EXTENSIONS ++ "/" ++ e.name

/-- The eligibility scan of `update_state`: immediate subdirectories whose
`latest.json` exists. -/
def eligibleDirs (entries : List ExtDirEntry) : List ExtDirEntry :=
  entries.filter (fun e => e.content.latestExists)

def batchSize : Nat := 100

/-- The worker-completion loop of `update_state`, processed here in
directory order (one admissible `as_completed` order). Returns the final
`(published, new_extensions)` pair and the trace of successive values the
published snapshot takes: every flush of a coalesced batch merges into
the published dict in place (`self.extensions.update(batch_extensions)`),
and a flush happens when the batch reaches `batch_size` or the last
completion yields a record. -/
def updateLoop (total : Nat) (count : Nat) (pub newExts batch : Snapshot)
    (trace : List Snapshot) : List ExtDirEntry → Snapshot × Snapshot × List Snapshot
  | [] => (pub, newExts, trace)
  | e :: rest =>
    let count := count + 1
    match processSingleExtension (extDirPath e) e.content with
    | none => updateLoop total count pub newExts batch trace rest
    | some latest =>
      let name := latest.identity.getD ""
      let newExts := dictSet newExts name latest
      let batch := dictSet batch name latest
      if batchSize ≤ batch.length ∨ count = total then
        let pub := dictUpdate pub batch
        updateLoop total count pub newExts [] (trace ++ [pub]) rest
      else
        updateLoop total count pub newExts batch trace rest

/-- Result of one `update_state` call. `ok trace` lists the successive
values of the published snapshot (`self.extensions`), oldest first and
starting with the value at entry — each element is observable by a
concurrent reader (e.g. `_apply_criteria`'s `self.extensions.copy()` or a
status read). `oserror p` means the root `os.scandir` raised, with `p`
the published snapshot at that moment (the exception propagates to the
caller). -/
inductive UpdateResult where
  | ok (trace : List Snapshot)
  | oserror (published : Snapshot)
deriving DecidableEq, Repr

/-- `VSCGallery.update_state`: try the cache first; otherwise scan the
root for eligible directories, process them (batch-merging completed
records into the published snapshot), and finally assign the fully
accumulated `new_extensions` map wholesale. -/
def updateState (fs : GalleryFS) (pub0 : Snapshot) : UpdateResult :=
  match loadCache fs pub0 with
  | (true, newPub) => .ok [pub0, newPub]
  | (false, _) =>
    match fs.extensionsRoot with
    | none => .oserror pub0
    | some entries =>
      let dirs := eligibleDirs entries
      let r := updateLoop dirs.length 0 pub0 [] [] [pub0] dirs
      .ok (r.2.2 ++ [r.2.1])

/-- The pure accumulation of `new_extensions` from the processed
directories (`new_extensions[name] = latest` for each successful load). -/
def accumInsert (acc : Snapshot) (e : ExtDirEntry) : Snapshot :=
  match processSingleExtension (extDirPath e) e.content with
  | none => acc
  | some latest => dictSet acc (latest.identity.getD "") latest

/-- The fully-accumulated map a completed rebuild publishes. -/
def newExtensionsFor (entries : List ExtDirEntry) : Snapshot :=
  (eligibleDirs entries).foldl accumInsert []

/-- `ArtifactChangedHandler.on_modified`: calls `gallery.update_state()`
whenever the event path contains `updated.json`. The handler has access
to the gallery's state (first argument) but consults no in-progress
flag — the decision is independent of whether a rebuild is running. -/
def onModifiedTriggersRebuild (_galleryIndexing : Bool) (srcPath : String) : Bool :=
  strContains "updated.json" srcPath

/-! ## Concrete instances used to evaluate the embedding -/

/-- The first processed version record of every well-formed sibling, in
discovery order (used to characterise the sibling-merge loop). -/
def siblingFirstVersions (extensiondir : String) (sibs : List SiblingDir) : List VersionRec :=
  sibs.filterMap fun s =>
    s.extensionJson.bind fun raw =>
      (processLoadedExtension raw extensiondir).bind fun e =>
        (e.versions.getD []).head?

/-- A record present in the published snapshot before a rebuild. -/
def extAold : ExtRecord := { identity := some "a", displayName := some "Old A" }

def pubC1 : Snapshot := [("a", extAold)]

/-- Directory content producing a fresh record keyed "b". -/
def c1DirB : ExtDirContent :=
  { latestExists := true
    latestJson := some { identity := some "b", versions := some [{ version := "1.0", files := some [] }] }
    siblings := some [] }

def entriesC1 : List ExtDirEntry := [{ name := "b", mtime := 1, content := c1DirB }]

def fsC1 : GalleryFS := { cache := none, extensionsRoot := some entriesC1 }

/-- The observable published-snapshot trace of the rebuild over `fsC1`. -/
def c1Trace : List Snapshot :=
  match updateState fsC1 pubC1 with
  | .ok t => t
  | .oserror _ => []

/-- The mid-rebuild published snapshot (after the batch flush). -/
def c1Mid : Snapshot := (c1Trace[1]?).getD []

/-- The finally published snapshot. -/
def c1Fin : Snapshot := (c1Trace[2]?).getD []

/-- The freshly built record for "b" as it appears mid-rebuild. -/
def c1ExtBnew : ExtRecord := (dictGet? c1Mid "b").getD {}

def extA2 : ExtRecord := { identity := some "alpha.one", extensionId := "id-a" }

def extB2 : ExtRecord := { identity := some "beta.two", extensionId := "id-b" }

def snapC2 : Snapshot := [("alpha.one", extA2), ("beta.two", extB2)]

def critsC2 : List Criterion :=
  [Criterion.mk .ExtensionName "alpha.one", Criterion.mk .ExtensionName "beta.two"]

def c3dir : String := "/artifacts/extensions/pub.ext"

def c3latestRaw : ExtRecord :=
  { identity := some "pub.ext", versions := some [{ version := "1.0", files := some [] }] }

def c3sibRaw : ExtRecord :=
  { identity := some "pub.ext", versions := some [{ version := "1.0.0", files := some [] }] }

def c3sibs : List SiblingDir := [{ extensionJson := some c3sibRaw }]

def c3content : ExtDirContent :=
  { latestExists := true, latestJson := some c3latestRaw, siblings := some c3sibs }

def c3ext : ExtRecord := (processSingleExtension c3dir c3content).getD {}

/-- The processed latest version record of the `c3` example. -/
def c3lv : VersionRec :=
  ((((latestProcessed c3dir c3content).getD {}).versions).getD []).headD { version := "" }

def c3out : List VersionRec :=
  (mergeSiblingVersions c3dir c3lv [c3lv] c3sibs).getD []

def c4dir : String := "/artifacts/extensions/c.d"

def c4content : ExtDirContent :=
  { latestExists := true
    latestJson := some { identity := some "c.d", versions := some [{ version := "2.0", files := some [] }] }
    siblings := some [{ extensionJson := some { identity := some "c.d", versions := some [{ version := "1.0", files := some [] }] } }] }

def c4ext : ExtRecord := (processSingleExtension c4dir c4content).getD {}

def pubC5 : Snapshot := [("old.ext", { identity := some "old.ext" })]

/-- A cache file that exists and is strictly newer than the extensions
tree, but whose content fails to deserialize. -/
def fsC5bad : GalleryFS :=
  { cache := some (10, none)
    extensionsRoot := some [{ name := "a", mtime := 5, content := {} }] }

/-- A fresh, readable cache over an un-scannable extensions root. -/
def fsC5top : GalleryFS := { cache := some (1000, some []), extensionsRoot := none }

def extR6 : ExtRecord := { identity := some "rec.one", recommended := some true }

def extN6 : ExtRecord := { identity := some "plain.two" }

def snapC6 : Snapshot := [("rec.one", extR6), ("plain.two", extN6)]

def critsC6 : List Criterion := [Criterion.mk .ExtensionName "doesnotexist"]

def extA10 : ExtRecord := { identity := some "a", stats := some ⟨0, 10, 0⟩ }

def extB50 : ExtRecord := { identity := some "b", stats := some ⟨0, 50, 0⟩ }

def extC30 : ExtRecord := { identity := some "c", stats := some ⟨0, 30, 0⟩ }

def snapABC : Snapshot := [("a", extA10), ("b", extB50), ("c", extC30)]

/-- An empty free-text criterion matches every record (Python `"" in s`). -/
def critsAll : List Criterion := [Criterion.mk .SearchText ""]

def fsC8 : GalleryFS := { cache := none, extensionsRoot := none }

def pubC8 : Snapshot := [("keep.ext", { identity := some "keep.ext" })]

def extD10 : ExtRecord := { identity := some "dup.ext", displayName := some "Dup Tool" }

def snapC10 : Snapshot := [("dup.ext", extD10)]

def critsC10 : List Criterion :=
  [Criterion.mk .ExtensionName "dup.ext", Criterion.mk .SearchText "dup"]

/-! ## Helper lemmas -/

theorem verLe_refl : ∀ l, verLe l l = true
  | [] => rfl
  | a :: as => by simp [verLe, verLe_refl as]

theorem verLe_total : ∀ a b, verLe a b = true ∨ verLe b a = true
  | [], _ => Or.inl rfl
  | _ :: _, [] => Or.inr rfl
  | a :: as, b :: bs => by
    rcases Nat.lt_trichotomy a b with h | h | h
    · left; simp [verLe, h]
    · subst h
      rcases verLe_total as bs with ih | ih
      · left; simp [verLe, ih]
      · right; simp [verLe, ih]
    · right; simp [verLe, h]

theorem verLe_nil_all : ∀ l, verLe l [] = true → ∀ b, verLe l b = true := by
  intro l
  induction l with
  | nil => intro _ b; rfl
  | cons x xs ih =>
    intro h b
    have hx : x = 0 ∧ verLe xs [] = true := by
      by_cases hx0 : x = 0
      · exact ⟨hx0, by simpa [verLe, hx0] using h⟩
      · simp [verLe, hx0] at h
    obtain ⟨hx0, hxs⟩ := hx
    subst hx0
    cases b with
    | nil => exact h
    | cons b0 bs =>
      by_cases hb : 0 < b0
      · simp [verLe, hb]
      · have hb0 : b0 = 0 := by omega
        subst hb0
        simpa [verLe] using ih hxs bs

theorem verLe_trans : ∀ a b c, verLe a b = true → verLe b c = true → verLe a c = true
  | [], _, _, _, _ => rfl
  | a :: as, [], c, h1, _ => verLe_nil_all (a :: as) h1 c
  | a :: as, b :: bs, [], h1, h2 => by
    have hb : b = 0 ∧ verLe bs [] = true := by
      by_cases hb0 : b = 0
      · exact ⟨hb0, by simpa [verLe, hb0] using h2⟩
      · simp [verLe, hb0] at h2
    obtain ⟨hb0, hbs⟩ := hb
    subst hb0
    have ha : a = 0 ∧ verLe as bs = true := by
      by_cases ha0 : a = 0
      · refine ⟨ha0, ?_⟩
        subst ha0
        simpa [verLe] using h1
      · have hpos : 0 < a := Nat.pos_of_ne_zero ha0
        simp [verLe, hpos, Nat.not_lt_zero] at h1
    obtain ⟨ha0, has⟩ := ha
    subst ha0
    have : verLe as [] = true := verLe_trans as bs [] has hbs
    simpa [verLe] using this
  | a :: as, b :: bs, c :: cs, h1, h2 => by
    have fact1 : a < b ∨ (a = b ∧ verLe as bs = true) := by
      rcases Nat.lt_trichotomy a b with h | h | h
      · exact Or.inl h
      · subst h; exact Or.inr ⟨rfl, by simpa [verLe] using h1⟩
      · simp [verLe, h, Nat.lt_asymm h] at h1
    have fact2 : b < c ∨ (b = c ∧ verLe bs cs = true) := by
      rcases Nat.lt_trichotomy b c with h | h | h
      · exact Or.inl h
      · subst h; exact Or.inr ⟨rfl, by simpa [verLe] using h2⟩
      · simp [verLe, h, Nat.lt_asymm h] at h2
    rcases fact1 with hab | ⟨hab, h1'⟩
    · rcases fact2 with hbc | ⟨hbc, _⟩
      · simp [verLe, Nat.lt_trans hab hbc]
      · subst hbc; simp [verLe, hab]
    · subst hab
      rcases fact2 with hbc | ⟨hbc, h2'⟩
      · simp [verLe, hbc]
      · subst hbc
        simp [verLe, verLe_trans as bs cs h1' h2']

theorem filter_orderedInsert {α : Type} (r : α → α → Prop) [DecidableRel r] (p : α → Bool)
    (x : α) : ∀ l : List α, (p x = true → ∀ z ∈ l, p z = true → r x z) →
    (List.orderedInsert r x l).filter p = if p x then x :: l.filter p else l.filter p
  | [], _ => by
    by_cases hpx : p x <;> simp [List.orderedInsert, List.filter_cons, hpx]
  | y :: ys, h => by
    by_cases hr : r x y
    · simp only [List.orderedInsert, if_pos hr]
      by_cases hpx : p x <;> simp [List.filter_cons, hpx]
    · have ih := filter_orderedInsert r p x ys
        (fun hpx z hz hpz => h hpx z (List.mem_cons_of_mem y hz) hpz)
      simp only [List.orderedInsert, if_neg hr]
      by_cases hpx : p x
      · have hpy : p y = false := by
          by_cases hpy : p y
          · exact absurd (h hpx y (List.mem_cons_self y ys) hpy) hr
          · simpa using hpy
        simp [List.filter_cons, hpy, hpx, ih]
      · simp [List.filter_cons, hpx, ih]

theorem filter_insertionSort {α : Type} (r : α → α → Prop) [DecidableRel r] (p : α → Bool)
    (hp : ∀ a b, p a = true → p b = true → r a b) :
    ∀ l : List α, (List.insertionSort r l).filter p = l.filter p
  | [] => rfl
  | x :: xs => by
    have ih := filter_insertionSort r p hp xs
    have hoi := filter_orderedInsert r p x (List.insertionSort r xs)
      (fun hpx z _ hpz => hp x z hpx hpz)
    simp only [List.insertionSort]
    rw [hoi]
    by_cases hpx : p x
    · simp [List.filter_cons, hpx, ih]
    · simp [List.filter_cons, hpx, ih]

theorem mergeSiblingVersions_eq (dir : String) (lv : VersionRec) :
    ∀ (sibs : List SiblingDir) (acc out : List VersionRec),
    mergeSiblingVersions dir lv acc sibs = some out →
    out = acc ++ (siblingFirstVersions dir sibs).filter (fun v => !(v == lv))
  | [], acc, out, h => by
    simp only [mergeSiblingVersions, Option.some_inj] at h
    simp [siblingFirstVersions, ← h]
  | s :: rest, acc, out, h => by
    simp only [mergeSiblingVersions] at h
    cases hs : s.extensionJson with
    | none =>
      simp only [hs] at h
      have ih := mergeSiblingVersions_eq dir lv rest acc out h
      simpa [siblingFirstVersions, List.filterMap_cons, hs] using ih
    | some raw =>
      simp only [hs] at h
      cases hp : processLoadedExtension raw dir with
      | none => simp [hp] at h
      | some vers =>
        simp only [hp] at h
        cases hv : vers.versions with
        | none => simp [hv] at h
        | some vlist =>
          cases vlist with
          | nil => simp [hv] at h
          | cons v0 vtail =>
            simp only [hv] at h
            by_cases heq : v0 = lv
            · rw [if_pos heq] at h
              have ih := mergeSiblingVersions_eq dir lv rest acc out h
              subst heq
              simpa [siblingFirstVersions, List.filterMap_cons, hs, hp, hv] using ih
            · rw [if_neg heq] at h
              have ih := mergeSiblingVersions_eq dir lv rest (acc ++ [v0]) out h
              simp [siblingFirstVersions, List.filterMap_cons, hs, hp, hv, heq, List.filter_cons]
              simpa [List.append_assoc] using ih

theorem mergedVersions_ne_nil (dir : String) (c : ExtDirContent) (ms : List VersionRec)
    (h : mergedVersions dir c = some ms) : ms ≠ [] := by
  unfold mergedVersions at h
  cases hL : latestProcessed dir c with
  | none => simp [hL] at h
  | some latest =>
    simp only [hL] at h
    cases hv : latest.versions with
    | none => simp [hv] at h
    | some vlist =>
      cases vlist with
      | nil => simp [hv] at h
      | cons lv0 lvs =>
        simp only [hv] at h
        cases hsib : c.siblings with
        | none =>
          simp only [hsib] at h
          have : lv0 :: lvs = ms := by simpa using h
          simp [← this]
        | some sibs =>
          simp only [hsib] at h
          have := mergeSiblingVersions_eq dir lv0 sibs (lv0 :: lvs) ms h
          simp [this]

theorem applyCriteriaLoop_eq (exts : Snapshot) :
    ∀ (crits : List Criterion) (res : List ExtRecord),
    applyCriteriaLoop exts crits res = res ++ (crits.map (critMatches exts)).flatten
  | [], res => by simp [applyCriteriaLoop]
  | c :: rest, res => by
    rw [applyCriteriaLoop, applyCriteriaLoop_eq exts rest (res ++ critMatches exts c)]
    simp [List.append_assoc]

theorem updateLoop_newExts (total : Nat) :
    ∀ (ds : List ExtDirEntry) (count : Nat) (pub newExts batch : Snapshot)
      (trace : List Snapshot),
    (updateLoop total count pub newExts batch trace ds).2.1 = ds.foldl accumInsert newExts
  | [], _, _, _, _, _ => rfl
  | e :: rest, count, pub, newExts, batch, trace => by
    simp only [updateLoop, List.foldl_cons]
    cases hp : processSingleExtension (extDirPath e) e.content with
    | none =>
      simp only [accumInsert, hp]
      exact updateLoop_newExts total rest (count + 1) pub newExts batch trace
    | some latest =>
      simp only [accumInsert, hp]
      by_cases hcond :
          batchSize ≤ (dictSet batch (latest.identity.getD "") latest).length
          ∨ count + 1 = total
      · rw [if_pos hcond]
        exact updateLoop_newExts total rest (count + 1) _ _ [] _
      · rw [if_neg hcond]
        exact updateLoop_newExts total rest (count + 1) pub _ _ trace

/-! ## Claim theorems -/

/-- C1, counterexample: the rebuild over `fsC1` (previous snapshot holding
only the old record "a", storage tree holding only a fresh extension "b")
takes the published snapshot through an intermediate value `c1Mid` that is
neither the previous snapshot nor the final one: it still contains the
previous snapshot's record "a" while already containing the rebuild's new
record "b" (the batch flush merges into the published dict in place), and
a reader querying at that moment gets both records. This refutes the
claim that a reader never observes a mixture of old and new records. -/
theorem c1_counterexample :
    updateState fsC1 pubC1 = .ok [pubC1, c1Mid, c1Fin]
    ∧ c1Mid ≠ pubC1 ∧ c1Mid ≠ c1Fin
    ∧ dictGet? c1Mid "a" = some extAold
    ∧ dictGet? c1Fin "a" = none
    ∧ dictGet? c1Mid "b" = some c1ExtBnew
    ∧ dictGet? pubC1 "b" = none
    ∧ applyCriteria c1Mid [Criterion.mk .SearchText ""] = [extAold, c1ExtBnew]
    ∧ extAold ≠ c1ExtBnew := by decide

/-- C1, amended: completed batches are merged into the published snapshot
in place during the rebuild, so readers can observe mixed old/new
snapshots; only the final assignment is a whole-reference swap, and it
publishes exactly the fully-accumulated `new_extensions` map. -/
theorem c1_final_swap_is_accumulated_map :
    ∀ (fs : GalleryFS) (pub : Snapshot) (entries : List ExtDirEntry) (tr : List Snapshot),
    fs.extensionsRoot = some entries →
    (loadCache fs pub).1 = false →
    updateState fs pub = .ok tr →
    tr.getLast? = some (newExtensionsFor entries) := by
  intro fs pub entries tr hroot hnl hupd
  unfold updateState at hupd
  rcases hlc : loadCache fs pub with ⟨b, s⟩
  rw [hlc] at hnl
  simp only at hnl
  subst hnl
  simp only [hlc, hroot] at hupd
  injection hupd with hupd
  subst hupd
  rw [List.getLast?_concat, updateLoop_newExts]
  rfl

/-- C1, witness for the amended theorem at the concrete rebuild `fsC1`. -/
theorem c1_final_swap_witness : c1Trace.getLast? = some (newExtensionsFor entriesC1) :=
  c1_final_swap_is_accumulated_map fsC1 pubC1 entriesC1 c1Trace rfl (by decide) (by decide)

/-- C2, counterexample: with two supported (non-SearchText) criteria, the
record `extA2` is returned even though it does not satisfy the second
criterion (whose own match set is `[extB2]`), so the result is not the
conjunction of the per-criterion match sets. -/
theorem c2_counterexample :
    applyCriteria snapC2 critsC2 = [extA2, extB2]
    ∧ critMatches snapC2 (Criterion.mk .ExtensionName "beta.two") = [extB2]
    ∧ extA2 ≠ extB2 := by decide

/-- C2, amended: every supported criterion (ExtensionId, ExtensionName and
SearchText alike) appends its own match set; the result is the
concatenation (union with multiplicity) of all per-criterion matches in
criteria order — nothing is intersected — subject to the recommended
fallback when that concatenation is empty and at most two criteria were
given. -/
theorem c2_criteria_union :
    ∀ (exts : Snapshot) (crits : List Criterion),
    applyCriteria exts crits =
      (if ((crits.map (critMatches exts)).flatten).length ≤ 0 ∧ crits.length ≤ 2
       then recommendedList exts
       else (crits.map (critMatches exts)).flatten) := by
  intro exts crits
  simp only [applyCriteria]
  rw [applyCriteriaLoop_eq exts crits []]
  simp

/-- C3, counterexample: a sibling whose version string "1.0.0" is
numerically equal (as a parsed version) to the latest "1.0" is NOT
excluded — both versions appear in the merged list — because the source
compares whole version records with `==`, not parsed versions. -/
theorem c3_counterexample :
    processSingleExtension c3dir c3content = some c3ext
    ∧ (c3ext.versions.getD []).map (fun v => v.version) = ["1.0", "1.0.0"]
    ∧ verLe ((parseVersion "1.0").getD []) ((parseVersion "1.0.0").getD []) = true
    ∧ verLe ((parseVersion "1.0.0").getD []) ((parseVersion "1.0").getD []) = true := by decide

/-- C3, amended: a sibling's record is excluded exactly when its first
processed version record is structurally equal to the already-known
latest version record; every other well-formed sibling's first version
record is appended in discovery order. -/
theorem c3_sibling_exclusion_by_record_equality :
    ∀ (dir : String) (lv : VersionRec) (sibs : List SiblingDir) (acc out : List VersionRec),
    mergeSiblingVersions dir lv acc sibs = some out →
    out = acc ++ (siblingFirstVersions dir sibs).filter (fun v => !(v == lv)) :=
  fun dir lv sibs acc out h => mergeSiblingVersions_eq dir lv sibs acc out h

/-- C3, witness for the amended theorem on the concrete example. -/
theorem c3_witness :
    c3out = [c3lv] ++ (siblingFirstVersions c3dir c3sibs).filter (fun v => !(v == c3lv)) :=
  c3_sibling_exclusion_by_record_equality c3dir c3lv c3sibs [c3lv] c3out (by decide)

/-- C4: every record produced by `process_single_extension` (and hence
every record of a snapshot published by a rebuild) has a non-empty
versions list that is sorted descending by parsed version and is a
permutation of the discovery-ordered merged list, with numerically tied
versions kept in discovery order (filter-stability for every key). -/
theorem c4_versions_nonempty_sorted_stable :
    ∀ (dir : String) (c : ExtDirContent) (ext : ExtRecord),
    processSingleExtension dir c = some ext →
    ∃ vs ms, ext.versions = some vs ∧ mergedVersions dir c = some ms ∧
      vs ≠ [] ∧ List.Pairwise versionGE vs ∧ vs.Perm ms ∧
      ∀ k : List Nat, vs.filter (fun v => vkeyD v == k) = ms.filter (fun v => vkeyD v == k) := by
  intro dir c ext h
  unfold processSingleExtension at h
  cases hL : latestProcessed dir c with
  | none => simp [hL] at h
  | some latest =>
    simp only [hL] at h
    cases hM : mergedVersions dir c with
    | none => simp [hM] at h
    | some ms =>
      simp only [hM] at h
      cases hS : sortVersionsDesc ms with
      | none => simp [hS] at h
      | some sortedVs =>
        simp only [hS] at h
        injection h with h
        subst h
        have hsv : sortedVs = ms.insertionSort versionGE := by
          unfold sortVersionsDesc at hS
          split at hS
          · exact absurd hS (by simp)
          · injection hS with hS
            exact hS.symm
        subst hsv
        haveI : IsTotal VersionRec versionGE := ⟨fun a b => verLe_total (vkeyD b) (vkeyD a)⟩
        haveI : IsTrans VersionRec versionGE :=
          ⟨fun a b c h1 h2 => verLe_trans (vkeyD c) (vkeyD b) (vkeyD a) h2 h1⟩
        refine ⟨ms.insertionSort versionGE, ms, rfl, rfl, ?_, ?_, ?_, ?_⟩
        · intro hnil
          have hperm := List.perm_insertionSort versionGE ms
          rw [hnil] at hperm
          exact mergedVersions_ne_nil dir c ms hM hperm.symm.eq_nil
        · exact List.sorted_insertionSort versionGE ms
        · exact List.perm_insertionSort versionGE ms
        · intro k
          refine filter_insertionSort versionGE (fun v => vkeyD v == k) ?_ ms
          intro a b ha hb
          have ha' : vkeyD a = k := eq_of_beq ha
          have hb' : vkeyD b = k := eq_of_beq hb
          show verLe (vkeyD b) (vkeyD a) = true
          rw [ha', hb']
          exact verLe_refl k

/-- C4, witness at a concrete extension directory with a latest version
"2.0" and a sibling version "1.0". -/
theorem c4_witness :
    ∃ vs ms, c4ext.versions = some vs ∧ mergedVersions c4dir c4content = some ms ∧
      vs ≠ [] ∧ List.Pairwise versionGE vs ∧ vs.Perm ms ∧
      ∀ k : List Nat, vs.filter (fun v => vkeyD v == k) = ms.filter (fun v => vkeyD v == k) :=
  c4_versions_nonempty_sorted_stable c4dir c4content c4ext (by decide)

/-- C5, counterexample: a cache file that exists and is strictly newer
than every extension-tree mtime but fails to deserialize does not replace
the snapshot, refuting the claimed "if and only if". -/
theorem c5_counterexample :
    loadCache fsC5bad pubC5 = (false, pubC5)
    ∧ fsC5bad.cache.isSome = true
    ∧ getExtensionsMtime fsC5bad < ((getCacheMtime fsC5bad : Nat) : WithTop Nat) := by decide

/-- C5, amended: `load_cache` replaces the snapshot if and only if the
cache file exists, deserializes, and its mtime is strictly newer than the
maximum source mtime (with an un-scannable tree counting as maximally
stale, so the cache is never loaded then); otherwise the snapshot is left
untouched. -/
theorem c5_load_cache_characterization :
    ∀ (fs : GalleryFS) (pub : Snapshot),
    (loadCache fs pub =
      match fs.cache with
      | some (m, some cachedData) =>
        if getExtensionsMtime fs < (m : WithTop Nat) then (true, cachedData) else (false, pub)
      | _ => (false, pub))
    ∧ (fs.extensionsRoot = none → (loadCache fs pub).1 = false) := by
  intro fs pub
  constructor
  · unfold loadCache
    cases hc : fs.cache with
    | none => simp [getCacheMtime, hc]
    | some mc =>
      obtain ⟨m, c?⟩ := mc
      cases c? with
      | none => simp [getCacheMtime, hc]
      | some cachedData => simp [getCacheMtime, hc]
  · intro hroot
    unfold loadCache
    simp [getExtensionsMtime, hroot]

/-- C5, witness: with an un-scannable extensions root the cache is never
loaded, even when fresh and readable. -/
theorem c5_witness : (loadCache fsC5top pubC5).1 = false :=
  (c5_load_cache_characterization fsC5top pubC5).2 rfl

/-- C6: if the criteria loop yields zero results and at most two criteria
were given, the query returns exactly the recommended-flagged extensions
(in snapshot order). -/
theorem c6_recommended_fallback :
    ∀ (exts : Snapshot) (crits : List Criterion),
    applyCriteriaLoop exts crits [] = [] → crits.length ≤ 2 →
    applyCriteria exts crits = recommendedList exts := by
  intro exts crits h1 h2
  simp only [applyCriteria, h1]
  simp [h2]

/-- C6, witness: an ExtensionName criterion matching nothing yields the
recommended extensions, not the empty set. -/
theorem c6_witness :
    applyCriteria snapC6 critsC6 = recommendedList snapC6 ∧ recommendedList snapC6 = [extR6] :=
  ⟨c6_recommended_fallback snapC6 critsC6 (by decide) (by decide), by decide⟩

/-- C7: a query with no sort key (or NoneOrRelevance) returns the
filtered records ordered by install count descending (a permutation of
the unsorted result). -/
theorem c7_default_sort_install_desc :
    ∀ (exts : Snapshot) (crits : List Criterion) (sb? : Option SortBy) (so? : Option SortOrder),
    (sb? = none ∨ sb? = some SortBy.NoneOrRelevance) →
    (galleryQuery exts crits sb? so?).Pairwise (fun a b => installKey b ≤ installKey a)
    ∧ (galleryQuery exts crits sb? so?).Perm (applyCriteria exts crits) := by
  intro exts crits sb? so? hsb
  have heff : effectiveSort sb? so? = (SortBy.InstallCount, SortOrder.Descending) := by
    rcases hsb with h | h <;> subst h <;> simp [effectiveSort]
  have hq : galleryQuery exts crits sb? so? =
      (applyCriteria exts crits).insertionSort
        (fun a b => ratLe (installKey b) (installKey a) = true) := by
    simp [galleryQuery, heff, sortResult, pySortByKey]
  haveI : IsTotal ExtRecord (fun a b => ratLe (installKey b) (installKey a) = true) :=
    ⟨fun a b => by
      rcases le_total (installKey b) (installKey a) with h | h
      · exact Or.inl (by simpa [ratLe] using h)
      · exact Or.inr (by simpa [ratLe] using h)⟩
  haveI : IsTrans ExtRecord (fun a b => ratLe (installKey b) (installKey a) = true) :=
    ⟨fun a b c h1 h2 => by
      simp only [ratLe, decide_eq_true_eq] at h1 h2 ⊢
      exact le_trans h2 h1⟩
  constructor
  · rw [hq]
    have hs := List.sorted_insertionSort
      (fun a b => ratLe (installKey b) (installKey a) = true) (applyCriteria exts crits)
    exact hs.imp (fun h => by simpa [ratLe] using h)
  · rw [hq]
    exact List.perm_insertionSort _ _

/-- C7, witness: extensions with install counts 10, 50 and 30 come back in
the order [50, 30, 10] under the default sort. -/
theorem c7_witness :
    (galleryQuery snapABC critsAll none none).Pairwise (fun a b => installKey b ≤ installKey a)
    ∧ galleryQuery snapABC critsAll none none = [extB50, extC30, extA10] :=
  ⟨(c7_default_sort_install_desc snapABC critsAll none none (Or.inl rfl)).1, by decide⟩

/-- C8: when no valid cache was loaded and enumerating the extensions
root fails, the rebuild aborts with the filesystem error surfaced and the
published snapshot exactly as it was. -/
theorem c8_scandir_error_preserves_snapshot :
    ∀ (fs : GalleryFS) (pub : Snapshot),
    (loadCache fs pub).1 = false → fs.extensionsRoot = none →
    updateState fs pub = .oserror pub := by
  intro fs pub h1 h2
  unfold updateState
  rcases hlc : loadCache fs pub with ⟨b, s⟩
  rw [hlc] at h1
  simp only at h1
  subst h1
  simp [hlc, h2]

/-- C8, witness at a concrete filesystem with a missing cache and an
un-scannable root. -/
theorem c8_witness : updateState fsC8 pubC8 = .oserror pubC8 :=
  c8_scandir_error_preserves_snapshot fsC8 pubC8 (by decide) rfl

/-- C9: the change-notification handler fires `update_state` for any path
containing "updated.json" and its decision is independent of the
gallery's indexing state — there is no in-progress guard, so a trigger
arriving mid-rebuild starts an overlapping rebuild (evaluated here at the
failing input with the indexing flag set). -/
theorem c9_on_modified_ignores_indexing :
    onModifiedTriggersRebuild true "/artifacts/updated.json" = true
    ∧ ∀ (idx1 idx2 : Bool) (p : String),
        onModifiedTriggersRebuild idx1 p = onModifiedTriggersRebuild idx2 p :=
  ⟨by decide, fun _ _ _ => rfl⟩

/-- C10: a snapshot and a query with an ExtensionName criterion and a
SearchText criterion both matching the same extension return that record
twice, and the TotalCount metadata equals the duplicated length. -/
theorem c10_duplicate_results :
    applyCriteria snapC10 critsC10 = [extD10, extD10]
    ∧ buildResponse (applyCriteria snapC10 critsC10) =
        { extensions := [extD10, extD10], pagingToken := none, totalCount := 2 }
    ∧ (buildResponse (applyCriteria snapC10 critsC10)).totalCount
        = (buildResponse (applyCriteria snapC10 critsC10)).extensions.length := by decide

end VSCOffline
